import Mathlib

/-!
Verification of the trade extractor in `extract_trades.py`.

The Python module infers executed trades from consecutive order-book
snapshots.  We embed its data model and operations shallowly:

* a row of the order-book DataFrame becomes `BookRow` (the DataFrame index,
  which is the snapshot time, is the `date` field);
* a row of the market-history DataFrame becomes `HistoryRow`;
* the trade dictionaries built by `infer_trades` become `Trade`;
* pandas `rolling(window=5, center=False).mean()` over a column of integers
  becomes `rollingMean5`; a missing value (NaN, produced while the window is
  still incomplete) is represented by `none`, and the IEEE rules the code
  relies on (NaN * ratio = NaN, `v <= NaN` is false) become `Option.map`
  and `leThresh`;
* the callback-driven batch accumulator of `extract_trades`
  (`find_trades` / `end_read` with their `type_count` / `next_types`
  variables) becomes an explicit state machine on `AccState`, where
  `flushed` records the successive batches handed to
  `infer_trades_helper` / `write_trades`.

Machine reals are modelled by `ℚ`; python integers by `ℤ`.
-/

/-- One row of the per-type order-book DataFrame assembled by
`read_bulk_file`: the snapshot time (the DataFrame index), the identifying
ids, and the order fields used by `infer_trades`. -/
structure BookRow where
  date : ℤ
  order_id : ℤ
  type_id : ℤ
  region_id : ℤ
  price : ℚ
  volume : ℤ
  buy : Bool
  order_range : String
  location_id : ℤ
deriving DecidableEq

/-- One row of the market-history DataFrame returned by
`get_market_history`: only the columns read by `infer_trades`. -/
structure HistoryRow where
  date : ℤ
  type_id : ℤ
  region_id : ℤ
  volume : ℤ
deriving DecidableEq

/-- The trade dictionary appended to `inferred_trades` by `infer_trades`.
The `location` value is kept unserialized (`none` for python `None`);
`locStr` performs the `str(location)` conversion. -/
structure Trade where
  timestamp : ℤ
  region_id : ℤ
  type_id : ℤ
  actual : Bool
  buy : Bool
  order_id : ℤ
  price : ℚ
  volume : ℤ
  location : Option ℤ
deriving DecidableEq

/-- Python `str(location)` where `location` is either `None` or the
numeric `location_id`. -/
def locStr : Option ℤ → String
  | none => "None"
  | some l => toString l

/-- The `threshold_ratio = 0.04` constant of `infer_trades`. -/
def threshold_ratio : ℚ := 4 / 100

/-- Pandas `series.rolling(window=5, center=False).mean()` over a series of
rationals: entry `i` is the mean of entries `i-4 .. i` when `i ≥ 4` and NaN
(`none`) while the window is incomplete. -/
def rollingMean5 (vs : List ℚ) : List (Option ℚ) :=
  (List.range vs.length).map (fun i =>
    if 4 ≤ i then some ((((vs.drop (i - 4)).take 5).sum) / 5) else none)

/-- The per-type volume threshold computed by `infer_trades`: `0` for an
empty history series, otherwise the last entry of the rolling mean
(`thresh_series[-1]`) times `threshold_ratio`; `none` stands for NaN. -/
def volumeThreshold (vs : List ℤ) : Option ℚ :=
  if vs.length = 0 then some 0
  else ((rollingMean5 (vs.map (fun v : ℤ => (v : ℚ)))).getLastD none).map
    (fun m => m * threshold_ratio)

/-- The comparison `next_line.volume <= volume_threshold` of
`infer_trades`; any comparison against NaN (`none`) is false. -/
def leThresh (v : ℤ) : Option ℚ → Bool
  | none => false
  | some t => decide ((v : ℚ) ≤ t)

/-- The threshold `infer_trades` stores in `volume_threshold_map` for a
type while processing one region: the history DataFrame is first filtered
to that region, then to the type, and `volumeThreshold` is applied to its
volume column. -/
def regionThreshold (hist : List HistoryRow) (r t : ℤ) : Option ℚ :=
  volumeThreshold
    (((hist.filter (fun h => decide (h.region_id = r))).filter
        (fun h => decide (h.type_id = t))).map (fun h => h.volume))

/-- The buy/station location rule shared by both trade constructors of
`infer_trades`: a buy order whose range is not `station` gets `None`,
every other order keeps its `location_id`. -/
def tradeLocation (row : BookRow) : Option ℤ :=
  if row.buy = true ∧ row.order_range ≠ "station" then none
  else some row.location_id

/-- `order_book.groupby(order_book.index)` for one region: the distinct
snapshot times in ascending order, each paired with its rows. -/
def snapGroups (rows : List BookRow) : List (ℤ × List BookRow) :=
  (((rows.map (fun x => x.date)).dedup).insertionSort (fun a b => a ≤ b)).map
    (fun d => (d, rows.filter (fun x => decide (x.date = d))))

/-- `pd.merge(current_snap, next_snap, on="order_id")`: each left row paired
with every right row sharing its `order_id` (`_x`/`_y` become the pair
components). -/
def mergeSnap (cur nxt : List BookRow) : List (BookRow × BookRow) :=
  cur.flatMap (fun c =>
    (nxt.filter (fun n => decide (n.order_id = c.order_id))).map (fun n => (c, n)))

/-- The trade built for one row of `changed_orders` (an `order_id` present
in both snapshots with `volume_x != volume_y`); rows whose type is outside
the batch's type set are skipped (`continue`). -/
def mkChanged (ts : List ℤ) (r t1 : ℤ) (p : BookRow × BookRow) : Option Trade :=
  if p.1.type_id ∈ ts then
    some { timestamp := t1, region_id := r, type_id := p.1.type_id,
           actual := true, buy := p.1.buy, order_id := p.1.order_id,
           price := p.2.price, volume := p.1.volume - p.2.volume,
           location := tradeLocation p.1 }
  else none

/-- `set(current_snap.order_id).difference(set(next_snap.order_id))`: the
order ids of the current snapshot (first occurrences) that are absent from
the next snapshot. -/
def removedIds (cur nxt : List BookRow) : List ℤ :=
  ((cur.map (fun c => c.order_id)).dedup).filter
    (fun oid => decide (oid ∉ nxt.map (fun n => n.order_id)))

/-- The trade built for one removed `order_id`: its row is looked up in the
current snapshot, skipped when its type is outside the type set, and kept
only when its volume does not exceed the type's threshold. -/
def mkRemoved (ts : List ℤ) (r t1 : ℤ) (th : ℤ → Option ℚ)
    (cur : List BookRow) (oid : ℤ) : Option Trade :=
  match cur.find? (fun c => decide (c.order_id = oid)) with
  | none => none
  | some row =>
    if row.type_id ∈ ts then
      if leThresh row.volume (th row.type_id) then
        some { timestamp := t1, region_id := r, type_id := row.type_id,
               actual := false, buy := row.buy, order_id := oid,
               price := row.price, volume := row.volume,
               location := tradeLocation row }
      else none
    else none

/-- The body of the `for current, next in snap_pairs` loop of
`infer_trades`: the changed-volume trades followed by the removed-order
trades for one consecutive snapshot pair. -/
def pairTrades (ts : List ℤ) (r : ℤ) (th : ℤ → Option ℚ)
    (cur nxt : ℤ × List BookRow) : List Trade :=
  ((mergeSnap cur.2 nxt.2).filter
      (fun p => decide (p.1.volume ≠ p.2.volume))).filterMap (mkChanged ts r nxt.1)
    ++ (removedIds cur.2 nxt.2).filterMap (mkRemoved ts r nxt.1 th cur.2)

/-- One iteration of the `for next_region in region_set` loop of
`infer_trades`: the order book is filtered to the region, grouped into
snapshots, and every consecutive snapshot pair is diffed with the region's
threshold map. -/
def regionTrades (ts : List ℤ) (r : ℤ) (book : List BookRow)
    (hist : List HistoryRow) : List Trade :=
  let order_book := book.filter (fun x => decide (x.region_id = r))
  let snaps := snapGroups order_book
  (snaps.zip snaps.tail).flatMap (fun pr => pairTrades ts r (regionThreshold hist r) pr.1 pr.2)

/-- `infer_trades(type_set, region_set, order_book_full, market_history_full)`:
the concatenation of every region's trades. -/
def infer_trades (ts rs : List ℤ) (book : List BookRow)
    (hist : List HistoryRow) : List Trade :=
  rs.flatMap (fun r => regionTrades ts r book hist)

/-- `pd.date_range(a, b)` with daily frequency over abstract day numbers:
the inclusive list of days from `a` to `b`. -/
def dateRange (a b : ℤ) : List ℤ :=
  (List.range (b - a + 1).toNat).map (fun i => a + Int.ofNat i)

/-- The date range queried by `get_market_history`:
`pd.date_range(history_date - timedelta(days=6), history_date - timedelta(days=1))`. -/
def get_market_history_range (d : ℤ) : List ℤ := dateRange (d - 6) (d - 1)

/-- Decidable instance for the `key=lambda y: y['timestamp']` sort used by
`write_trades`. -/
instance : DecidableRel (fun a b : Trade => a.timestamp ≤ b.timestamp) :=
  fun a b => inferInstanceAs (Decidable (a.timestamp ≤ b.timestamp))

instance : IsTotal Trade (fun a b => a.timestamp ≤ b.timestamp) :=
  ⟨fun a b => Int.le_total a.timestamp b.timestamp⟩

instance : IsTrans Trade (fun a b => a.timestamp ≤ b.timestamp) :=
  ⟨fun _ _ _ hab hbc => le_trans hab hbc⟩

/-- `write_trades(fobj, trade_list)` as the document structure it writes:
the sorted distinct types, each with its sorted distinct regions, each with
that region's trades; within a type the trades are first sorted by
timestamp, so each region's slice is time-ascending. -/
def write_trades (trade_list : List Trade) : List (ℤ × List (ℤ × List Trade)) :=
  (((trade_list.map (fun x => x.type_id)).dedup).insertionSort (fun a b => a ≤ b)).map
    (fun t =>
      let trades := (trade_list.filter (fun x => decide (x.type_id = t))).insertionSort
        (fun a b => a.timestamp ≤ b.timestamp)
      (t, (((trades.map (fun x => x.region_id)).dedup).insertionSort (fun a b => a ≤ b)).map
        (fun r => (r, trades.filter (fun x => decide (x.region_id = r))))))

/-- The mutable state of the `find_trades` / `end_read` callbacks in
`extract_trades`: the `type_count` counter, the `next_types` buffer, and
the successive batches handed to `infer_trades_helper` and
`write_trades`. -/
structure AccState where
  type_count : ℕ
  next_types : List (ℤ × List BookRow)
  flushed : List (List (ℤ × List BookRow))
deriving DecidableEq

/-- The initial accumulator state of `extract_trades`. -/
def initAcc : AccState := { type_count := 0, next_types := [], flushed := [] }

/-- The `find_trades(type_id, df)` callback: while `type_count` is below the
batch size a non-empty DataFrame is buffered; otherwise the buffered batch
is processed and the buffer reset (the arriving pair is not buffered). -/
def find_trades (bs : ℕ) (s : AccState) (type_id : ℤ) (df : List BookRow) : AccState :=
  if s.type_count < bs then
    if 0 < df.length then
      { s with next_types := s.next_types ++ [(type_id, df)],
               type_count := s.type_count + 1 }
    else s
  else
    { type_count := 0, next_types := [],
      flushed := s.flushed ++ [s.next_types] }

/-- The `end_read()` callback: the remaining buffer is processed only when
`type_count < type_batch_size`. -/
def end_read (bs : ℕ) (s : AccState) : AccState :=
  if s.type_count < bs then { s with flushed := s.flushed ++ [s.next_types] }
  else s

/-- A full run of `read_bulk_file`: every `(type_id, df)` pair is offered to
`find_trades` in archive order, then `end_read` fires. -/
def run_offers (bs : ℕ) (offers : List (ℤ × List BookRow)) : AccState :=
  end_read bs (offers.foldl (fun s p => find_trades bs s p.1 p.2) initAcc)

/-- A sample non-empty order-book row for concrete instances. -/
def sampleRow : BookRow :=
  { date := 10, order_id := 1, type_id := 7, region_id := 1, price := 5,
    volume := 3, buy := false, order_range := "region", location_id := 42 }

/-- A second sample non-empty order-book row. -/
def sampleRowB : BookRow :=
  { date := 10, order_id := 2, type_id := 8, region_id := 1, price := 2,
    volume := 9, buy := false, order_range := "region", location_id := 42 }

/-- Market history giving type 7 a five-day volume of 25 in region 1 and
2500 in region 2. -/
def histC2 : List HistoryRow :=
  [⟨1, 7, 1, 25⟩, ⟨2, 7, 1, 25⟩, ⟨3, 7, 1, 25⟩, ⟨4, 7, 1, 25⟩, ⟨5, 7, 1, 25⟩,
   ⟨1, 7, 2, 2500⟩, ⟨2, 7, 2, 2500⟩, ⟨3, 7, 2, 2500⟩, ⟨4, 7, 2, 2500⟩, ⟨5, 7, 2, 2500⟩]

/-- An order book where an identical type-7 order of volume 50 disappears
between the two snapshots of region 1 and of region 2. -/
def bookC2 : List BookRow :=
  [⟨10, 1, 7, 1, 9, 50, false, "station", 42⟩, ⟨20, 11, 7, 1, 9, 77, false, "station", 42⟩,
   ⟨10, 2, 7, 2, 9, 50, false, "station", 43⟩, ⟨20, 12, 7, 2, 9, 77, false, "station", 43⟩]

/-- A history series for type 7 in region 1 with only three days of data. -/
def histC9 : List HistoryRow := [⟨1, 7, 1, 100⟩, ⟨2, 7, 1, 100⟩, ⟨3, 7, 1, 100⟩]

/-- An order book whose only change is a buy order (range not `station`)
shrinking from volume 10 to 4 with price 5 in the later snapshot. -/
def bookC6 : List BookRow :=
  [⟨10, 1, 7, 1, 4, 10, true, "solar", 42⟩, ⟨20, 1, 7, 1, 5, 4, true, "solar", 42⟩]

/-- The trade `infer_trades` emits for `bookC6`. -/
def trC6 : Trade :=
  { timestamp := 20, region_id := 1, type_id := 7, actual := true, buy := true,
    order_id := 1, price := 5, volume := 6, location := none }

/-- A removed sell-side buy order of volume 3 (the spec's inferred-trade
example). -/
def rowC3 : BookRow := ⟨10, 2, 7, 1, 9, 3, true, "solar", 43⟩

/-- The earlier snapshot's row of the spec's changed-volume example. -/
def rowC4x : BookRow := ⟨10, 1, 7, 1, 4, 10, false, "station", 42⟩

/-- The later snapshot's row of the spec's changed-volume example. -/
def rowC4y : BookRow := ⟨20, 1, 7, 1, 5, 4, false, "station", 42⟩

/-- A five-day constant history series. -/
def vsC5 : List ℤ := [25, 25, 25, 25, 25]

/-- Two trades of distinct types and regions, for the output-ordering
instance. -/
def tradeW1 : Trade := ⟨100, 20, 5, true, false, 1, 5, 6, some 42⟩

/-- Second trade of the output-ordering instance. -/
def tradeW2 : Trade := ⟨50, 10, 3, false, true, 2, 9, 3, none⟩

/-- The trade list of the output-ordering instance. -/
def lW : List Trade := [tradeW1, tradeW2]

/-! ## Helper lemmas -/

/-- The region filter inside `regionThreshold` is idempotent: restricting
the history to one region first does not change that region's thresholds. -/
theorem regionThreshold_filter_region (hist : List HistoryRow) (r t : ℤ) :
    regionThreshold (hist.filter (fun h => decide (h.region_id = r))) r t
      = regionThreshold hist r t := by
  unfold regionThreshold
  congr 2
  rw [List.filter_filter]
  simp

/-! ## Claim theorems -/

/-- C1 (code bug): the claim says every offered `(type_id, order-book)` pair
is buffered and processed in exactly one flushed batch, with `finish()`
flushing any remaining partial buffer and a size-0 flush being a no-op.
The code violates this: with `type_batch_size = 1`, a single offered pair is
never flushed at all (`end_read` skips the final flush because
`type_count < type_batch_size` is false for a full buffer), and with two
offered pairs the second one is dropped (the offer arriving at a full
buffer flushes the buffer but never buffers the arriving pair) while a
size-0 batch is flushed at the end (which in the Python
`infer_trades_helper` raises an IndexError on `full_book_list[0]` instead
of being a no-op). -/
theorem c1_batch_loss :
    (run_offers 1 [(7, [sampleRow])]).flushed = [] ∧
    (run_offers 1 [(7, [sampleRow]), (8, [sampleRowB])]).flushed
      = [[(7, [sampleRow])], []] ∧
    ((8 : ℤ), [sampleRowB]) ∉ (run_offers 1 [(7, [sampleRow]), (8, [sampleRowB])]).flushed.flatten := by
  refine ⟨by decide, by decide, by decide⟩

/-- C10 (corrected): offering an empty order-book pair leaves the
accumulator unchanged only while the buffer is below `batchSize`; when the
buffer is full the offer still triggers the pending flush and resets the
buffer (the empty pair itself is never buffered and never counts). -/
theorem c10_empty_offer (bs : ℕ) (s : AccState) (t : ℤ) :
    (s.type_count < bs → find_trades bs s t [] = s) ∧
    (bs ≤ s.type_count →
      find_trades bs s t []
        = { type_count := 0, next_types := [],
            flushed := s.flushed ++ [s.next_types] }) := by
  constructor
  · intro h
    unfold find_trades
    rw [if_pos h]
    simp
  · intro h
    unfold find_trades
    rw [if_neg (by omega)]

/-- Witness for C10's amended claim at a concrete below-capacity state. -/
theorem c10_empty_offer_witness :
    find_trades 2 { type_count := 1, next_types := [(7, [sampleRow])], flushed := [] } 8 []
      = { type_count := 1, next_types := [(7, [sampleRow])], flushed := [] } :=
  (c10_empty_offer 2 { type_count := 1, next_types := [(7, [sampleRow])], flushed := [] } 8).1
    (by decide)

/-- Counterexample to C10 as stated: after one non-empty offer with
`type_batch_size = 1` the buffer is full, and offering an empty order book
then changes the state (it triggers the pending flush). -/
theorem c10_counterexample :
    [(7, [sampleRow]), ((8 : ℤ), ([] : List BookRow))].foldl
        (fun s p => find_trades 1 s p.1 p.2) initAcc
      ≠ [((7 : ℤ), [sampleRow])].foldl (fun s p => find_trades 1 s p.1 p.2) initAcc := by
  decide

/-- C8 (amended): `get_market_history` queries the inclusive date range
`D-6 .. D-1`, which is six days, not five; the compute date `D` itself is
excluded. -/
theorem c8_amended_range (d : ℤ) :
    get_market_history_range d = [d - 6, d - 5, d - 4, d - 3, d - 2, d - 1] ∧
    d ∉ get_market_history_range d := by
  have hr : get_market_history_range d = [d - 6, d - 5, d - 4, d - 3, d - 2, d - 1] := by
    unfold get_market_history_range dateRange
    have h6 : (d - 1 - (d - 6) + 1).toNat = 6 := by omega
    rw [h6]
    have hrange : List.range 6 = [0, 1, 2, 3, 4, 5] := rfl
    rw [hrange]
    simp only [List.map_cons, List.map_nil, List.cons.injEq, and_true]
    norm_num
    omega
  refine ⟨hr, ?_⟩
  rw [hr]
  simp only [List.mem_cons, List.not_mem_nil, or_false]
  omega

/-- Counterexample to C8 as stated: at compute date 0 the queried range
contains day -6, which is not one of the five days immediately preceding
day 0, and the range has six entries, not five. -/
theorem c8_counterexample :
    (-6 : ℤ) ∈ get_market_history_range 0 ∧
    (get_market_history_range 0).length ≠ 5 := by
  refine ⟨?_, ?_⟩ <;>
    simp [(c8_amended_range 0).1]

/-- C2 (corrected): `infer_trades` recomputes `volume_threshold_map` inside
the region loop from the history filtered to that region, so the trades of
region `r` depend only on region `r`'s slice of the history — one scalar
threshold per `(region, type)` pair, not one per type shared across the
batch's regions. -/
theorem c2_region_scoped_thresholds (ts : List ℤ) (r : ℤ) (book : List BookRow)
    (hist : List HistoryRow) :
    regionTrades ts r book (hist.filter (fun h => decide (h.region_id = r)))
      = regionTrades ts r book hist := by
  unfold regionTrades
  rw [show regionThreshold (hist.filter (fun h => decide (h.region_id = r))) r
        = regionThreshold hist r from
      funext (fun t => regionThreshold_filter_region hist r t)]

/-- Counterexample to C2 as stated: with `histC2`, the threshold applied to
disappeared type-7 orders is 1 in region 1 but 100 in region 2, so the same
disappearing volume-50 order is suppressed in region 1 and emitted in
region 2 of the same batch. -/
theorem c2_counterexample :
    regionThreshold histC2 1 7 ≠ regionThreshold histC2 2 7 ∧
    leThresh 50 (regionThreshold histC2 1 7) = false ∧
    leThresh 50 (regionThreshold histC2 2 7) = true ∧
    (infer_trades [7] [1, 2] bookC2 histC2).map (fun tr => tr.region_id) = [2] := by
  have h1 : regionThreshold histC2 1 7 = some 1 := by
    norm_num [regionThreshold, volumeThreshold, rollingMean5, threshold_ratio, histC2,
      List.filter, List.range, List.range.loop, List.getLastD]
  have h2 : regionThreshold histC2 2 7 = some 100 := by
    norm_num [regionThreshold, volumeThreshold, rollingMean5, threshold_ratio, histC2,
      List.filter, List.range, List.range.loop, List.getLastD]
  refine ⟨by rw [h1, h2]; simp, by rw [h1]; decide, by rw [h2]; decide, ?_⟩
  simp [infer_trades, regionTrades, snapGroups, bookC2, List.filter, mergeSnap,
    pairTrades, removedIds, mkRemoved, mkChanged, List.insertionSort, List.orderedInsert,
    List.dedup, List.pwFilter, h1, h2, leThresh, List.find?, tradeLocation,
    List.filterMap, List.find?_cons]
  norm_num

/-- The last entry of the rolling mean (`thresh_series[-1]`) of a non-empty
series: the mean of the last five entries when the series has at least
five, NaN (`none`) otherwise. -/
theorem rollingMean5_last (l : List ℚ) (h : l.length ≠ 0) :
    (rollingMean5 l).getLastD none
      = if 4 ≤ l.length - 1
        then some (((l.drop (l.length - 1 - 4)).take 5).sum / 5)
        else none := by
  unfold rollingMean5
  obtain ⟨m, hm⟩ : ∃ m, l.length = m + 1 := ⟨l.length - 1, by omega⟩
  rw [hm, List.range_succ, List.map_append]
  simp [List.getLastD_concat]

/-- A non-empty series shorter than the window yields a NaN threshold. -/
theorem volumeThreshold_short (vs : List ℤ) (h1 : vs.length ≠ 0)
    (h2 : vs.length < 5) : volumeThreshold vs = none := by
  unfold volumeThreshold
  rw [if_neg h1, rollingMean5_last _ (by simpa using h1),
    if_neg (by simp only [List.length_map]; omega)]
  rfl

/-- A series of length at least five yields the mean of its last five
entries scaled by the threshold ratio. -/
theorem volumeThreshold_long (vs : List ℤ) (h : 5 ≤ vs.length) :
    volumeThreshold vs
      = some ((((vs.drop (vs.length - 5)).map (fun v : ℤ => (v : ℚ))).sum / 5)
          * threshold_ratio) := by
  unfold volumeThreshold
  rw [if_neg (by omega), rollingMean5_last _ (by simp only [List.length_map]; omega),
    if_pos (by simp only [List.length_map]; omega)]
  have hidx : (vs.map (fun v : ℤ => (v : ℚ))).length - 1 - 4 = vs.length - 5 := by
    simp only [List.length_map]; omega
  rw [hidx, ← List.map_drop]
  have hlen : ((vs.drop (vs.length - 5)).map (fun v : ℤ => (v : ℚ))).length ≤ 5 := by
    simp only [List.length_map, List.length_drop]; omega
  rw [List.take_of_length_le hlen]
  rfl

/-- C5 (confirmed): the volume threshold is the last value of the
non-centered window-5 simple moving average — for a series with at least
five days, the mean of the five most recent entries — multiplied by the
0.04 ratio, and it is exactly 0 for an empty series, in which case only
orders with volume ≤ 0 pass the `volume <= threshold` test. -/
theorem c5_threshold (vs : List ℤ) :
    (vs.length = 0 → volumeThreshold vs = some 0) ∧
    (5 ≤ vs.length → volumeThreshold vs
        = some ((((vs.drop (vs.length - 5)).map (fun v : ℤ => (v : ℚ))).sum / 5)
            * threshold_ratio)) ∧
    (∀ v : ℤ, leThresh v (some 0) = true ↔ v ≤ 0) := by
  refine ⟨?_, volumeThreshold_long vs, ?_⟩
  · intro h
    unfold volumeThreshold
    rw [if_pos h]
  · intro v
    unfold leThresh
    rw [decide_eq_true_eq]
    exact_mod_cast Iff.rfl

/-- Witness for C5 at the empty series and a concrete five-day series. -/
theorem c5_threshold_witness :
    volumeThreshold ([] : List ℤ) = some 0 ∧
    volumeThreshold vsC5
      = some ((((vsC5.drop (vsC5.length - 5)).map (fun v : ℤ => (v : ℚ))).sum / 5)
          * threshold_ratio) ∧
    (leThresh 3 (some 0) = true ↔ (3 : ℤ) ≤ 0) :=
  ⟨(c5_threshold []).1 rfl, (c5_threshold vsC5).2.1 (by decide),
   (c5_threshold vsC5).2.2 3⟩

/-- Filtering the output of a `filterMap` is filtering its input, whenever
the predicate's value on each output is determined by the input. -/
theorem filterMap_filter_exchange {α β : Type} (f : α → Option β) (p : β → Bool)
    (q : α → Bool) (hf : ∀ a b, f a = some b → p b = q a) (l : List α) :
    (l.filterMap f).filter p = (l.filter q).filterMap f := by
  induction l with
  | nil => rfl
  | cons a l ih =>
    cases hfa : f a with
    | none =>
      by_cases hq : q a = true
      · simp [List.filterMap_cons, List.filter_cons, hfa, hq, ih]
      · simp [List.filterMap_cons, List.filter_cons, hfa, hq, ih]
    | some b =>
      have hpb : p b = q a := hf a b hfa
      by_cases hq : q a = true
      · simp [List.filterMap_cons, List.filter_cons, hfa, hq, hpb, ih]
      · simp [List.filterMap_cons, List.filter_cons, hfa, hq, hpb, ih]

/-- In a list whose keys are distinct, filtering for one present key yields
exactly that element. -/
theorem filter_key_eq_singleton {α κ : Type} [DecidableEq κ] (key : α → κ)
    (l : List α) (a : α) (ha : a ∈ l) (hn : (l.map key).Nodup) :
    l.filter (fun x => decide (key x = key a)) = [a] := by
  induction l with
  | nil => cases ha
  | cons b l ih =>
    rw [List.map_cons, List.nodup_cons] at hn
    rcases List.mem_cons.mp ha with hab | hal
    · subst hab
      rw [List.filter_cons, if_pos (by simp)]
      have hnil : l.filter (fun x => decide (key x = key a)) = [] := by
        rw [List.filter_eq_nil_iff]
        intro x hx
        simp only [decide_eq_true_eq]
        intro hxb
        exact hn.1 (hxb ▸ List.mem_map.mpr ⟨x, hx, rfl⟩)
      rw [hnil]
    · have hkb : key b ≠ key a := by
        intro he
        exact hn.1 (he ▸ List.mem_map.mpr ⟨a, hal, rfl⟩)
      rw [List.filter_cons, if_neg (by simpa using hkb)]
      exact ih hal hn.2

/-- In a list whose keys are distinct, `find?` for the key of a present
element returns that element. -/
theorem find_key_eq_some {α κ : Type} [DecidableEq κ] (key : α → κ)
    (l : List α) (a : α) (ha : a ∈ l) (hn : (l.map key).Nodup) :
    l.find? (fun x => decide (key x = key a)) = some a := by
  induction l with
  | nil => cases ha
  | cons b l ih =>
    rw [List.map_cons, List.nodup_cons] at hn
    rcases List.mem_cons.mp ha with hab | hal
    · subst hab
      rw [List.find?_cons]
      simp
    · have hkb : key b ≠ key a := by
        intro he
        exact hn.1 (he ▸ List.mem_map.mpr ⟨a, hal, rfl⟩)
      rw [List.find?_cons]
      have hd : (decide (key b = key a)) = false := by simpa using hkb
      rw [hd]
      exact ih hal hn.2

/-- Structure of `pd.merge` output: each pair joins a current row with a
next row sharing its `order_id`. -/
theorem mem_mergeSnap {cur nxt : List BookRow} {q : BookRow × BookRow}
    (h : q ∈ mergeSnap cur nxt) :
    q.1 ∈ cur ∧ q.2 ∈ nxt ∧ q.2.order_id = q.1.order_id := by
  unfold mergeSnap at h
  rcases List.mem_flatMap.mp h with ⟨c, hc, hq⟩
  rcases List.mem_map.mp hq with ⟨n, hn, rfl⟩
  rcases List.mem_filter.mp hn with ⟨hn2, hp⟩
  exact ⟨hc, hn2, by simpa using hp⟩

/-- Unfolding `mergeSnap` over the head of the current snapshot. -/
theorem mergeSnap_cons (b : BookRow) (t nxt : List BookRow) :
    mergeSnap (b :: t) nxt
      = ((nxt.filter (fun x => decide (x.order_id = b.order_id))).map (fun x => (b, x)))
        ++ mergeSnap t nxt := by
  unfold mergeSnap
  rw [List.flatMap_cons]

/-- When both snapshots have distinct order ids, the merge restricted to
one joined id is exactly its joined pair. -/
theorem mergeSnap_filter_key {nxt : List BookRow} {c n : BookRow}
    (hn : n ∈ nxt) (hnxt : (nxt.map (fun x => x.order_id)).Nodup)
    (hoid : n.order_id = c.order_id) :
    ∀ cur : List BookRow, c ∈ cur → (cur.map (fun x => x.order_id)).Nodup →
      (mergeSnap cur nxt).filter (fun q => decide (q.1.order_id = c.order_id))
        = [(c, n)] := by
  intro cur
  induction cur with
  | nil => intro hc; cases hc
  | cons b t ih =>
    intro hc hcur
    rw [List.map_cons, List.nodup_cons] at hcur
    rw [mergeSnap_cons, List.filter_append]
    rcases List.mem_cons.mp hc with hcb | hct
    · subst hcb
      have hinner : ((nxt.filter (fun x => decide (x.order_id = c.order_id))).map
            (fun x => (c, x))).filter (fun q => decide (q.1.order_id = c.order_id))
          = (nxt.filter (fun x => decide (x.order_id = c.order_id))).map
              (fun x => (c, x)) := by
        rw [List.filter_map]
        congr 1
        apply List.filter_eq_self.mpr
        intro x _
        simp
      have htail : (mergeSnap t nxt).filter
          (fun q => decide (q.1.order_id = c.order_id)) = [] := by
        rw [List.filter_eq_nil_iff]
        intro q hq
        rcases mem_mergeSnap hq with ⟨hq1, _, _⟩
        simp only [decide_eq_true_eq]
        intro he
        exact hcur.1 (he ▸ List.mem_map.mpr ⟨q.1, hq1, rfl⟩)
      rw [hinner, htail, List.append_nil]
      have hsingle : nxt.filter (fun x => decide (x.order_id = c.order_id)) = [n] := by
        have hbase := filter_key_eq_singleton (fun x => x.order_id) nxt n hn hnxt
        simp only [← hoid]
        exact hbase
      rw [hsingle]
      rfl
    · have hbc : b.order_id ≠ c.order_id := by
        intro he
        exact hcur.1 (he ▸ List.mem_map.mpr ⟨c, hct, rfl⟩)
      have hinner : ((nxt.filter (fun x => decide (x.order_id = b.order_id))).map
            (fun x => (b, x))).filter (fun q => decide (q.1.order_id = c.order_id))
          = [] := by
        rw [List.filter_eq_nil_iff]
        intro q hq
        rcases List.mem_map.mp hq with ⟨x, _, hqx⟩
        subst hqx
        simpa using hbc
      rw [hinner, List.nil_append]
      exact ih hct hcur.2

/-- Destructuring a successful `mkChanged`. -/
theorem mkChanged_eq_some {ts : List ℤ} {r t1 : ℤ} {p : BookRow × BookRow} {tr : Trade}
    (h : mkChanged ts r t1 p = some tr) :
    p.1.type_id ∈ ts ∧
    tr = { timestamp := t1, region_id := r, type_id := p.1.type_id, actual := true,
           buy := p.1.buy, order_id := p.1.order_id, price := p.2.price,
           volume := p.1.volume - p.2.volume, location := tradeLocation p.1 } := by
  unfold mkChanged at h
  split at h
  next hty => exact ⟨hty, (Option.some.inj h).symm⟩
  next hty => exact Option.noConfusion h

/-- Destructuring a successful `mkRemoved`. -/
theorem mkRemoved_eq_some {ts : List ℤ} {r t1 : ℤ} {th : ℤ → Option ℚ}
    {cur : List BookRow} {oid : ℤ} {tr : Trade}
    (h : mkRemoved ts r t1 th cur oid = some tr) :
    ∃ row, cur.find? (fun c => decide (c.order_id = oid)) = some row ∧
      row.type_id ∈ ts ∧ leThresh row.volume (th row.type_id) = true ∧
      tr = { timestamp := t1, region_id := r, type_id := row.type_id, actual := false,
             buy := row.buy, order_id := oid, price := row.price,
             volume := row.volume, location := tradeLocation row } := by
  unfold mkRemoved at h
  split at h
  next => exact Option.noConfusion h
  next row hf =>
    split at h
    next hty =>
      split at h
      next hth => exact ⟨row, hf, hty, hth, (Option.some.inj h).symm⟩
      next hth => exact Option.noConfusion h
    next hty => exact Option.noConfusion h

/-- Every trade of one snapshot pair carries the later snapshot's time, the
region, a type from the batch's type set, and the fields of an originating
row of the earlier snapshot; an `actual = false` trade moreover passed the
volume-threshold test. -/
theorem pairTrades_mem {ts : List ℤ} {r : ℤ} {th : ℤ → Option ℚ}
    {cur nxt : ℤ × List BookRow} {tr : Trade}
    (h : tr ∈ pairTrades ts r th cur nxt) :
    tr.timestamp = nxt.1 ∧ tr.region_id = r ∧ tr.type_id ∈ ts ∧
    ∃ row ∈ cur.2, tr.order_id = row.order_id ∧ tr.type_id = row.type_id ∧
      tr.buy = row.buy ∧ tr.location = tradeLocation row ∧
      (tr.actual = false → tr.volume = row.volume ∧ tr.price = row.price ∧
        leThresh row.volume (th row.type_id) = true) := by
  unfold pairTrades at h
  rcases List.mem_append.mp h with hch | hrm
  · rcases List.mem_filterMap.mp hch with ⟨p, hp, hmk⟩
    rcases mkChanged_eq_some hmk with ⟨hty, htr⟩
    subst htr
    have hp1 : p.1 ∈ cur.2 := (mem_mergeSnap (List.mem_of_mem_filter hp)).1
    exact ⟨rfl, rfl, hty, p.1, hp1, rfl, rfl, rfl, rfl,
      fun hfalse => absurd hfalse (by simp)⟩
  · rcases List.mem_filterMap.mp hrm with ⟨oid, hoid, hmk⟩
    rcases mkRemoved_eq_some hmk with ⟨row, hf, hty, hth, htr⟩
    subst htr
    have hrowmem : row ∈ cur.2 := List.mem_of_find?_eq_some hf
    have hroid : row.order_id = oid := by simpa using List.find?_some hf
    exact ⟨rfl, rfl, hty, row, hrowmem, hroid.symm, rfl, rfl, rfl,
      fun _ => ⟨rfl, rfl, hth⟩⟩

/-- Every trade of one region's diff run carries that region, a type from
the type set, and the fields of an originating row of the order book lying
in that region; an `actual = false` trade passed the test against that
region's threshold map. -/
theorem regionTrades_mem {ts : List ℤ} {r : ℤ} {book : List BookRow}
    {hist : List HistoryRow} {tr : Trade}
    (h : tr ∈ regionTrades ts r book hist) :
    tr.region_id = r ∧ tr.type_id ∈ ts ∧
    ∃ row ∈ book, row.region_id = r ∧ tr.order_id = row.order_id ∧
      tr.type_id = row.type_id ∧ tr.buy = row.buy ∧
      tr.location = tradeLocation row ∧
      (tr.actual = false → tr.volume = row.volume ∧ tr.price = row.price ∧
        leThresh row.volume (regionThreshold hist r row.type_id) = true) := by
  unfold regionTrades at h
  rcases List.mem_flatMap.mp h with ⟨pr, hpr, htr⟩
  obtain ⟨a, b⟩ := pr
  rcases pairTrades_mem htr with ⟨_, hreg, hty, row, hrow, hfields⟩
  have ha : a ∈ snapGroups (book.filter (fun x => decide (x.region_id = r))) :=
    (List.of_mem_zip hpr).1
  unfold snapGroups at ha
  rcases List.mem_map.mp ha with ⟨d, _, had⟩
  subst had
  have hrow2 : row ∈ book.filter (fun x => decide (x.region_id = r)) :=
    List.mem_of_mem_filter hrow
  rcases List.mem_filter.mp hrow2 with ⟨hrowbook, hrowreg⟩
  exact ⟨hreg, hty, row, hrowbook, by simpa using hrowreg, hfields⟩

/-- Every trade of a full `infer_trades` run originates from a book row of
its own region, and an `actual = false` trade passed the test against its
region's threshold for its type. -/
theorem infer_trades_mem {ts rs : List ℤ} {book : List BookRow}
    {hist : List HistoryRow} {tr : Trade}
    (h : tr ∈ infer_trades ts rs book hist) :
    tr.region_id ∈ rs ∧ tr.type_id ∈ ts ∧
    ∃ row ∈ book, row.region_id = tr.region_id ∧ tr.order_id = row.order_id ∧
      tr.type_id = row.type_id ∧ tr.buy = row.buy ∧
      tr.location = tradeLocation row ∧
      (tr.actual = false → tr.volume = row.volume ∧ tr.price = row.price ∧
        leThresh row.volume (regionThreshold hist tr.region_id row.type_id) = true) := by
  unfold infer_trades at h
  rcases List.mem_flatMap.mp h with ⟨r, hr, htr⟩
  rcases regionTrades_mem htr with ⟨hreg, hty, row, hrow, hrowreg, hfields⟩
  subst hreg
  exact ⟨hr, hty, row, hrow, hrowreg, hfields⟩

/-- C9 (confirmed): a non-empty history series of fewer than five days for
a type in a region yields a NaN threshold (`none`), and consequently no
`actual = false` trade is ever emitted for that type in that region, since
`volume <= NaN` is always false. -/
theorem c9_nan_threshold (ts rs : List ℤ) (book : List BookRow)
    (hist : List HistoryRow) (T R : ℤ)
    (h1 : ((hist.filter (fun h => decide (h.region_id = R))).filter
        (fun h => decide (h.type_id = T))).length ≠ 0)
    (h2 : ((hist.filter (fun h => decide (h.region_id = R))).filter
        (fun h => decide (h.type_id = T))).length < 5) :
    regionThreshold hist R T = none ∧
    ∀ tr ∈ infer_trades ts rs book hist,
      ¬(tr.actual = false ∧ tr.type_id = T ∧ tr.region_id = R) := by
  have hnone : regionThreshold hist R T = none := by
    unfold regionThreshold
    apply volumeThreshold_short
    · simpa using h1
    · simpa using h2
  refine ⟨hnone, ?_⟩
  rintro tr htr ⟨hact, htyT, hregR⟩
  rcases infer_trades_mem htr with ⟨_, _, row, _, _, _, htyrow, _, _, hfields⟩
  have hle := (hfields hact).2.2
  rw [← htyrow, htyT, hregR, hnone] at hle
  simp [leThresh] at hle

/-- Witness for C9 at a three-day history series. -/
theorem c9_nan_threshold_witness :
    regionThreshold histC9 1 7 = none :=
  (c9_nan_threshold [] [] [] histC9 7 1 (by decide) (by decide)).1

/-- C6 (confirmed): every emitted trade (of either kind) has an originating
order book row — identified by the trade's own order id, region, type and
buy flag — and the trade's location field is null exactly when that
originating order is a buy order whose `order_range` is not `station`;
otherwise the location is that order's `location_id`; the null location is
serialized as the literal string `None`. -/
theorem c6_location (ts rs : List ℤ) (book : List BookRow) (hist : List HistoryRow) :
    (∀ tr ∈ infer_trades ts rs book hist,
       ∃ row ∈ book, row.region_id = tr.region_id ∧ tr.order_id = row.order_id ∧
         tr.type_id = row.type_id ∧ tr.buy = row.buy ∧
         tr.location = tradeLocation row ∧
         (tr.location = none ↔ row.buy = true ∧ row.order_range ≠ "station") ∧
         (¬(row.buy = true ∧ row.order_range ≠ "station") →
           tr.location = some row.location_id)) ∧
    locStr none = "None" := by
  refine ⟨?_, rfl⟩
  intro tr htr
  rcases infer_trades_mem htr with ⟨_, _, row, hrow, hreg, hoid, htyrow, hbuy, hloc, _⟩
  refine ⟨row, hrow, hreg, hoid, htyrow, hbuy, hloc, ?_, ?_⟩
  · rw [hloc]
    unfold tradeLocation
    by_cases hc : row.buy = true ∧ row.order_range ≠ "station"
    · rw [if_pos hc]
      simp [hc]
    · rw [if_neg hc]
      simp [hc]
  · intro hc
    rw [hloc]
    unfold tradeLocation
    rw [if_neg hc]

/-- Witness for C6 at a concrete book whose single emitted trade comes from
a non-station buy order, so its location is null. -/
theorem c6_location_witness :
    ∃ row ∈ bookC6, row.region_id = trC6.region_id ∧ trC6.order_id = row.order_id ∧
      trC6.type_id = row.type_id ∧ trC6.buy = row.buy ∧
      trC6.location = tradeLocation row ∧
      (trC6.location = none ↔ row.buy = true ∧ row.order_range ≠ "station") ∧
      (¬(row.buy = true ∧ row.order_range ≠ "station") →
        trC6.location = some row.location_id) :=
  (c6_location [7] [1] bookC6 []).1 trC6 (by decide)

/-- C3 (confirmed): for a consecutive snapshot pair, an order present in
the earlier snapshot and absent from the later one, with a type in the
batch's type set, yields exactly one `actual = false` trade — timestamped
with the later snapshot's time and carrying the order's price and entire
remaining volume from the earlier snapshot — when its volume is within the
type's threshold, and no trade at all when it exceeds it. -/
theorem c3_disappeared_order (ts : List ℤ) (r : ℤ) (th : ℤ → Option ℚ) (t0 t1 : ℤ)
    (cur nxt : List BookRow) (row : BookRow)
    (hrow : row ∈ cur)
    (hcur : (cur.map (fun x => x.order_id)).Nodup)
    (habs : row.order_id ∉ nxt.map (fun x => x.order_id))
    (hty : row.type_id ∈ ts) :
    (pairTrades ts r th (t0, cur) (t1, nxt)).filter
        (fun tr => decide (tr.order_id = row.order_id ∧ tr.actual = false))
      = if leThresh row.volume (th row.type_id) = true
        then [{ timestamp := t1, region_id := r, type_id := row.type_id,
                actual := false, buy := row.buy, order_id := row.order_id,
                price := row.price, volume := row.volume,
                location := tradeLocation row }]
        else [] := by
  unfold pairTrades
  rw [List.filter_append]
  have hch : (((mergeSnap cur nxt).filter
        (fun p => decide (p.1.volume ≠ p.2.volume))).filterMap
        (mkChanged ts r t1)).filter
        (fun tr => decide (tr.order_id = row.order_id ∧ tr.actual = false)) = [] := by
    rw [List.filter_eq_nil_iff]
    intro tr htr
    rcases List.mem_filterMap.mp htr with ⟨p, _, hmk⟩
    rcases mkChanged_eq_some hmk with ⟨_, htr2⟩
    subst htr2
    simp
  have hexch : ((removedIds cur nxt).filterMap (mkRemoved ts r t1 th cur)).filter
        (fun tr => decide (tr.order_id = row.order_id ∧ tr.actual = false))
      = ((removedIds cur nxt).filter
          (fun oid => decide (oid = row.order_id))).filterMap
          (mkRemoved ts r t1 th cur) := by
    apply filterMap_filter_exchange
    intro oid tr hmk
    rcases mkRemoved_eq_some hmk with ⟨row2, _, _, _, htr2⟩
    subst htr2
    simp
  have hmem : row.order_id ∈ removedIds cur nxt := by
    unfold removedIds
    rw [List.mem_filter]
    exact ⟨List.mem_dedup.mpr (List.mem_map.mpr ⟨row, hrow, rfl⟩), by simpa using habs⟩
  have hnd : (removedIds cur nxt).Nodup := by
    unfold removedIds
    exact (List.nodup_dedup _).filter _
  have hsingle : (removedIds cur nxt).filter
      (fun oid => decide (oid = row.order_id)) = [row.order_id] := by
    have hbase := filter_key_eq_singleton (fun x => x) (removedIds cur nxt)
      row.order_id hmem (by simpa using hnd)
    simpa using hbase
  have hfind : cur.find? (fun x => decide (x.order_id = row.order_id)) = some row :=
    find_key_eq_some (fun x => x.order_id) cur row hrow hcur
  have hmk : mkRemoved ts r t1 th cur row.order_id
      = if leThresh row.volume (th row.type_id) = true
        then some { timestamp := t1, region_id := r, type_id := row.type_id,
                    actual := false, buy := row.buy, order_id := row.order_id,
                    price := row.price, volume := row.volume,
                    location := tradeLocation row }
        else none := by
    simp only [mkRemoved, hfind]
    rw [if_pos hty]
  rw [hch, hexch, hsingle, List.nil_append]
  by_cases hth : leThresh row.volume (th row.type_id) = true
  · simp [List.filterMap_cons, hmk, hth]
  · simp [List.filterMap_cons, hmk, hth]

/-- Witness for C3: the spec's example of a volume-3 order disappearing
under a threshold of 5 emits one inferred trade with the earlier price and
the full volume. -/
theorem c3_disappeared_order_witness :
    (pairTrades [7] 1 (fun _ => some 5) (10, [rowC3]) (20, [])).filter
        (fun tr => decide (tr.order_id = rowC3.order_id ∧ tr.actual = false))
      = if leThresh rowC3.volume ((fun _ => some 5) rowC3.type_id) = true
        then [{ timestamp := 20, region_id := 1, type_id := rowC3.type_id,
                actual := false, buy := rowC3.buy, order_id := rowC3.order_id,
                price := rowC3.price, volume := rowC3.volume,
                location := tradeLocation rowC3 }]
        else [] :=
  c3_disappeared_order [7] 1 (fun _ => some 5) 10 20 [rowC3] [] rowC3
    (by decide) (by decide) (by decide) (by decide)

/-- C4 (confirmed): for a consecutive snapshot pair, an order present in
both snapshots with a changed volume and a type in the batch's type set
yields exactly one trade with `actual = true`, volume `v(S_t) - v(S_t+1)`
(no sign filtering), the later snapshot's price and time, and the location
computed from the earlier row. -/
theorem c4_changed_volume (ts : List ℤ) (r : ℤ) (th : ℤ → Option ℚ) (t0 t1 : ℤ)
    (cur nxt : List BookRow) (c n : BookRow)
    (hc : c ∈ cur) (hn : n ∈ nxt) (hoid : n.order_id = c.order_id)
    (hcur : (cur.map (fun x => x.order_id)).Nodup)
    (hnxt : (nxt.map (fun x => x.order_id)).Nodup)
    (hvol : c.volume ≠ n.volume) (hty : c.type_id ∈ ts) :
    (pairTrades ts r th (t0, cur) (t1, nxt)).filter
        (fun tr => decide (tr.order_id = c.order_id))
      = [{ timestamp := t1, region_id := r, type_id := c.type_id, actual := true,
           buy := c.buy, order_id := c.order_id, price := n.price,
           volume := c.volume - n.volume, location := tradeLocation c }] := by
  unfold pairTrades
  rw [List.filter_append]
  have hrm : ((removedIds cur nxt).filterMap (mkRemoved ts r t1 th cur)).filter
      (fun tr => decide (tr.order_id = c.order_id)) = [] := by
    rw [List.filter_eq_nil_iff]
    intro tr htr
    rcases List.mem_filterMap.mp htr with ⟨oid, hoidmem, hmk⟩
    rcases mkRemoved_eq_some hmk with ⟨row2, _, _, _, htr2⟩
    subst htr2
    unfold removedIds at hoidmem
    rcases List.mem_filter.mp hoidmem with ⟨_, hnotin⟩
    simp only [decide_eq_true_eq] at hnotin ⊢
    intro he
    apply hnotin
    rw [he, ← hoid]
    exact List.mem_map.mpr ⟨n, hn, rfl⟩
  have hexch : (((mergeSnap cur nxt).filter
        (fun p => decide (p.1.volume ≠ p.2.volume))).filterMap
        (mkChanged ts r t1)).filter (fun tr => decide (tr.order_id = c.order_id))
      = (((mergeSnap cur nxt).filter
          (fun p => decide (p.1.volume ≠ p.2.volume))).filter
          (fun p => decide (p.1.order_id = c.order_id))).filterMap
          (mkChanged ts r t1) := by
    apply filterMap_filter_exchange
    intro p tr hmk
    rcases mkChanged_eq_some hmk with ⟨_, htr2⟩
    subst htr2
    simp
  have hcomm : ((mergeSnap cur nxt).filter
        (fun p => decide (p.1.volume ≠ p.2.volume))).filter
        (fun p => decide (p.1.order_id = c.order_id))
      = ((mergeSnap cur nxt).filter
          (fun p => decide (p.1.order_id = c.order_id))).filter
          (fun p => decide (p.1.volume ≠ p.2.volume)) :=
    List.filter_comm _ _ _
  have hkey : (mergeSnap cur nxt).filter
      (fun q => decide (q.1.order_id = c.order_id)) = [(c, n)] :=
    mergeSnap_filter_key hn hnxt hoid cur hc hcur
  have hmkc : mkChanged ts r t1 (c, n)
      = some { timestamp := t1, region_id := r, type_id := c.type_id, actual := true,
               buy := c.buy, order_id := c.order_id, price := n.price,
               volume := c.volume - n.volume, location := tradeLocation c } := by
    simp only [mkChanged]
    rw [if_pos hty]
  rw [hrm, List.append_nil, hexch, hcomm, hkey]
  rw [List.filter_cons, if_pos (by simpa using hvol)]
  simp [List.filterMap_cons, hmkc]

/-- Witness for C4: the spec's example of an order going from volume 10 to
4 with later price 5 emits exactly one actual trade of volume 6 at price
5. -/
theorem c4_changed_volume_witness :
    (pairTrades [7] 1 (fun _ => none) (10, [rowC4x]) (20, [rowC4y])).filter
        (fun tr => decide (tr.order_id = rowC4x.order_id))
      = [{ timestamp := 20, region_id := 1, type_id := rowC4x.type_id, actual := true,
           buy := rowC4x.buy, order_id := rowC4x.order_id, price := rowC4y.price,
           volume := rowC4x.volume - rowC4y.volume, location := tradeLocation rowC4x }] :=
  c4_changed_volume [7] 1 (fun _ => none) 10 20 [rowC4x] [rowC4y] rowC4x rowC4y
    (by decide) (by decide) (by decide) (by decide) (by decide) (by decide) (by decide)

/-- Sorting the deduplicated values of an integer list ascending yields a
strictly increasing list. -/
theorem sorted_lt_dedup_sort (l : List ℤ) :
    List.Sorted (fun a b : ℤ => a < b)
      (l.dedup.insertionSort (fun a b => a ≤ b)) := by
  have hs : List.Sorted (fun a b : ℤ => a ≤ b)
      (l.dedup.insertionSort (fun a b => a ≤ b)) :=
    List.sorted_insertionSort _ _
  have hn : (l.dedup.insertionSort (fun a b => a ≤ b)).Nodup :=
    ((List.perm_insertionSort _ _).symm).nodup (List.nodup_dedup l)
  exact hs.lt_of_le hn

/-- C7 (confirmed): within one flush, `write_trades` lists the flush's
distinct types in strictly ascending order; under each type its distinct
regions in strictly ascending order; under each region that region's trades
in non-decreasing timestamp order; and every listed trade carries exactly
the type and region it is listed under. -/
theorem c7_flush_ordering (l : List Trade) :
    List.Sorted (fun a b : ℤ => a < b) ((write_trades l).map Prod.fst) ∧
    ∀ e ∈ write_trades l,
      List.Sorted (fun a b : ℤ => a < b) (e.2.map Prod.fst) ∧
      ∀ g ∈ e.2,
        List.Sorted (fun a b : ℤ => a ≤ b) (g.2.map (fun tr => tr.timestamp)) ∧
        ∀ tr ∈ g.2, tr.type_id = e.1 ∧ tr.region_id = g.1 := by
  constructor
  · unfold write_trades
    rw [List.map_map]
    simp only [Function.comp_def]
    rw [List.map_id']
    exact sorted_lt_dedup_sort _
  · intro e he
    simp only [write_trades, List.mem_map] at he
    obtain ⟨t, ht, rfl⟩ := he
    constructor
    · rw [List.map_map]
      simp only [Function.comp_def]
      rw [List.map_id']
      exact sorted_lt_dedup_sort _
    · intro g hg
      simp only [List.mem_map] at hg
      obtain ⟨r, hr, rfl⟩ := hg
      have hsorted : List.Sorted (fun a b : Trade => a.timestamp ≤ b.timestamp)
          ((l.filter (fun x => decide (x.type_id = t))).insertionSort
            (fun a b => a.timestamp ≤ b.timestamp)) :=
        List.sorted_insertionSort _ _
      constructor
      · exact List.Pairwise.map _ (fun a b h => h) (hsorted.filter _)
      · intro tr htr
        rcases List.mem_filter.mp htr with ⟨htr2, hreg⟩
        have htype : tr ∈ l.filter (fun x => decide (x.type_id = t)) :=
          (List.perm_insertionSort _ _).mem_iff.mp htr2
        rcases List.mem_filter.mp htype with ⟨_, hty⟩
        exact ⟨by simpa using hty, by simpa using hreg⟩

/-- Witness for C7 on a two-trade flush with types 5, 3 and regions 20,
10. -/
theorem c7_flush_ordering_witness :
    List.Sorted (fun a b : ℤ => a ≤ b) ([tradeW2].map (fun tr => tr.timestamp)) ∧
    tradeW2.type_id = 3 ∧ tradeW2.region_id = 10 :=
  ⟨(((c7_flush_ordering lW).2 (3, [(10, [tradeW2])]) (by decide)).2
      (10, [tradeW2]) (by decide)).1,
   (((c7_flush_ordering lW).2 (3, [(10, [tradeW2])]) (by decide)).2
      (10, [tradeW2]) (by decide)).2 tradeW2 (by decide)⟩
